import Mathlib

/-!
Verification development for the sortle-js interpreter.

The definitions below are a shallow embedding of the JavaScript sources
`src/lib/runtime.js` and `src/lib/regex.js`.  JavaScript numbers are IEEE
doubles; integer arithmetic on them is exact for magnitudes below 2^53, and
the only non-integer values the interpreter can produce are `Infinity`,
`-Infinity` and `NaN` (from `/` and `%` with a zero divisor).  We therefore
model the numeric domain as an unbounded integer together with those three
special values, which is faithful for all programs whose intermediate
magnitudes stay below 2^53 (the repository's own README notes that integer
arithmetic is deliberately not modulo 2^32).  Stringification models
JavaScript's switch to exponential notation at magnitude 10^21; the
digit-level shortest-representation rounding that doubles exhibit between
2^53 and 10^21 falls under the same below-2^53 exactness caveat as the
arithmetic itself.
-/

namespace Sortle

/-- Model of the JavaScript number values the interpreter can produce:
an exact integer, `Infinity`, `-Infinity`, or `NaN`. -/
inductive SNum where
  | int (n : Int)
  | inf
  | negInf
  | nan
deriving DecidableEq, Repr

/-- JavaScript `a + b` on numbers of the interpreter's numeric domain. -/
def jsAdd : SNum → SNum → SNum
  | .int a, .int b => .int (a + b)
  | .nan, _ => .nan
  | _, .nan => .nan
  | .inf, .negInf => .nan
  | .negInf, .inf => .nan
  | .inf, _ => .inf
  | _, .inf => .inf
  | .negInf, _ => .negInf
  | _, .negInf => .negInf

/-- JavaScript `a * b` on numbers of the interpreter's numeric domain. -/
def jsMul : SNum → SNum → SNum
  | .int a, .int b => .int (a * b)
  | .nan, _ => .nan
  | _, .nan => .nan
  | .inf, .int b => if b = 0 then .nan else if 0 < b then .inf else .negInf
  | .int a, .inf => if a = 0 then .nan else if 0 < a then .inf else .negInf
  | .negInf, .int b => if b = 0 then .nan else if 0 < b then .negInf else .inf
  | .int a, .negInf => if a = 0 then .nan else if 0 < a then .negInf else .inf
  | .inf, .inf => .inf
  | .inf, .negInf => .negInf
  | .negInf, .inf => .negInf
  | .negInf, .negInf => .inf

/-- JavaScript `Math.floor(a / b)`.  For integers with `b ≠ 0` this is exactly
floored integer division (`Int.fdiv`); for `b = 0` JavaScript produces
`Infinity`, `-Infinity` or `NaN` — no error is raised. -/
def jsFloorDiv : SNum → SNum → SNum
  | .nan, _ => .nan
  | _, .nan => .nan
  | .int a, .int b =>
    if b = 0 then (if a = 0 then .nan else if 0 < a then .inf else .negInf)
    else .int (Int.fdiv a b)
  | .int _, .inf => .int 0
  | .int _, .negInf => .int 0
  | .inf, .int b => if 0 ≤ b then .inf else .negInf
  | .negInf, .int b => if 0 ≤ b then .negInf else .inf
  | .inf, _ => .nan
  | .negInf, _ => .nan

/-- JavaScript `a % b` (remainder with truncated-division semantics;
`x % 0` is `NaN` — no error is raised). -/
def jsMod : SNum → SNum → SNum
  | .nan, _ => .nan
  | _, .nan => .nan
  | .int a, .int b => if b = 0 then .nan else .int (Int.tmod a b)
  | .int a, .inf => .int a
  | .int a, .negInf => .int a
  | .inf, _ => .nan
  | .negInf, _ => .nan

/-- The operator set of `src/lib/runtime.js` (the closed union in the
program-state comment): `+ * / % ^ ~ ? $`. -/
inductive Op where
  | add      -- '+'
  | mul      -- '*'
  | div      -- '/'
  | mod      -- '%'
  | caret    -- '^'
  | tilde    -- '~'
  | question -- '?'
  | dollar   -- '$'
deriving DecidableEq, Repr

/-- A term of an expression body: `number | string | {type: 'operator', value}`.
The parser only produces integer number literals. -/
inductive Term where
  | num (n : Int)
  | str (s : String)
  | op (o : Op)
deriving DecidableEq, Repr

/-- A stack value during evaluation: a JavaScript number or a string. -/
inductive Value where
  | num (n : SNum)
  | str (s : String)
deriving DecidableEq, Repr

/-- An entry of the program state: an `[expression name, expression]` tuple.
String comparisons (`>=` in the insertion search, `>` in `^`/`$`) are
modelled with Lean's lexicographic order on Unicode scalar values;
JavaScript compares UTF-16 code units, which agrees on all strings without
supplementary-plane characters (names are parser-restricted to ASCII
letters, and the spec allows either ordering). -/
abbrev Entry := String × List Term

/-- Little-endian decimal digits of a positive natural number, recursing on
a fuel bound so that concrete values reduce inside the kernel; agrees with
`Nat.digits 10` whenever the fuel is at least the number (see
`natDigitsRev_eq_digits`). -/
def natDigitsRev : Nat → Nat → List Nat
  | 0, _ => []
  | fuel + 1, n => if n = 0 then [] else n % 10 :: natDigitsRev fuel (n / 10)

/-- Decimal digit string of a natural number, most significant digit first. -/
def natToDecimal (n : Nat) : List Char :=
  if n = 0 then ['0'] else (natDigitsRev n n).reverse.map Nat.digitChar

/-- JavaScript exponential notation for an integer whose decimal digits are
`ds` (most significant first, leading digit non-zero): the significand is
the digits with trailing zeros removed, with a decimal point after the
first digit when more than one remains, and the exponent is the digit count
minus one.  `String(10^21) = "1e+21"`, `String(123 * 10^19) = "1.23e+21"`. -/
def jsExpForm (ds : List Char) : List Char :=
  let significand := (ds.reverse.dropWhile (· = '0')).reverse
  let expDigits := natToDecimal (ds.length - 1)
  match significand with
  | [] => []
  | d :: rest =>
    d :: ((if rest.isEmpty then [] else '.' :: rest) ++ ('e' :: '+' :: expDigits))

/-- JavaScript `String(n)` for an integer-valued number: decimal digits
with a leading `-` for negatives while the magnitude stays below `10^21`;
from `10^21` upward JavaScript switches to exponential notation.  (Above
`2^53` the underlying double is additionally subject to rounding, which is
outside this exact-integer model — see the header note; the notation
switch itself happens at `10^21` and is modelled.) -/
def jsIntToString (n : Int) : String :=
  let ds := natToDecimal n.natAbs
  let body := if n.natAbs < 10 ^ 21 then ds else jsExpForm ds
  if n < 0 then String.mk ('-' :: body) else String.mk body

/-- JavaScript `String(x)` on the interpreter's numeric domain. -/
def jsNumToString : SNum → String
  | .int n => jsIntToString n
  | .inf => "Infinity"
  | .negInf => "-Infinity"
  | .nan => "NaN"

/-- `sortleString` from `src/lib/runtime.js`: a string maps to itself,
the number `0` maps to `""`, any other number to `String(input)`. -/
def sortleString : Value → String
  | .str s => s
  | .num n => if n = SNum.int 0 then "" else jsNumToString n

/-- Value of `Number('0' + s.match(/^[0-9]*/)[0])`: the longest leading run
of decimal digits of `s`, parsed as a (non-negative) decimal number. -/
def parseLeadingDigits (cs : List Char) : Nat :=
  (cs.takeWhile Char.isDigit).foldl (fun acc c => acc * 10 + (c.toNat - '0'.toNat)) 0

/-- `sortleNumber` from `src/lib/runtime.js`: a number maps to itself; a
string is scanned for a leading `[0-9]*` prefix which is parsed as a
number (empty prefix gives `0`). -/
def sortleNumber : Value → SNum
  | .num n => n
  | .str s => .int (parseLeadingDigits s.data)

/-- Errors of the interpreter core: `SortleRuntimeError` (a message) and
`SortleRegexError` (the offending pattern and a message). -/
inductive SErr where
  | runtime (message : String)
  | regex (pattern message : String)
deriving DecidableEq, Repr

/-- A compiled regex element from `src/lib/regex.js`:
`{chars, optional, canRepeat, capturing, _grouped}` (`_grouped` is
compiler-internal; `optional`/`canRepeat` start out absent, i.e. false). -/
structure RElem where
  chars : List Char
  capturing : Bool
  grouped : Bool
  optional : Bool := false
  canRepeat : Bool := false
deriving DecidableEq, Repr

/-- The mutable locals of `compileRegex`'s character loop. -/
structure CompState where
  compiled : List RElem
  currentElementChars : List Char
  inGroup : Option Char
  capturingGroupSeen : Bool
deriving DecidableEq, Repr

/-- `finishElement` from `compileRegex`: push the pending characters as an
element (recording whether it came from a `(` group) and reset. -/
def finishElement (st : CompState) : CompState :=
  { st with
    compiled := st.compiled ++
      [{ chars := st.currentElementChars,
         capturing := st.inGroup == some '(',
         grouped := st.inGroup.isSome }],
    currentElementChars := [],
    inGroup := none }

/-- `modifyLastElement` from `compileRegex`: apply a `!` or `@` modifier to
the last compiled element; if that element is an ungrouped literal longer
than one character, split it so that only its last character is quantified. -/
def modifyLastElement (modifier : Char) (compiled : List RElem) : List RElem :=
  match compiled.getLast? with
  | none =>
    -- The regex began with a ! or @; the source ignores it.
    compiled
  | some lastElement =>
    let le :=
      if modifier = '!' then { lastElement with canRepeat := true, optional := false }
      else if modifier = '@' then { lastElement with canRepeat := false, optional := true }
      else lastElement
    if le.grouped = false ∧ 1 < le.chars.length then
      -- chars.substr(0, len-1) and chars.substr(-1); the guard makes the
      -- default of `getLastD` unreachable.
      compiled.dropLast ++
        [{ chars := le.chars.dropLast, capturing := false, grouped := false },
         { le with chars := [le.chars.getLastD ' '] }]
    else
      compiled.dropLast ++ [le]

/-- The character loop of `compileRegex` (`for (let i = 0; ...)`). -/
def compileRegexLoop (regex : String) : List Char → CompState → Except SErr CompState
  | [], st => pure st
  | chr :: rest, st =>
    if chr = '[' ∨ chr = '(' then
      match st.inGroup with
      | some g =>
        throw (.regex regex s!"cannot nest groups - unexpected {chr} inside group of {g}")
      | none =>
        let st := if 0 < st.currentElementChars.length then finishElement st else st
        let st := { st with inGroup := some chr }
        if chr = '(' then
          if st.capturingGroupSeen then
            throw (.regex regex "cannot use multiple () groups")
          else
            compileRegexLoop regex rest { st with capturingGroupSeen := true }
        else
          compileRegexLoop regex rest st
    else if (st.inGroup = some '[' ∧ chr = ']') ∨ (st.inGroup = some '(' ∧ chr = ')') then
      compileRegexLoop regex rest (finishElement st)
    else if chr = '@' ∨ chr = '!' then
      let st := if st.inGroup = none ∧ 0 < st.currentElementChars.length then finishElement st else st
      compileRegexLoop regex rest { st with compiled := modifyLastElement chr st.compiled }
    else
      compileRegexLoop regex rest { st with currentElementChars := st.currentElementChars ++ [chr] }

/-- `compileRegex` from `src/lib/regex.js`. -/
def compileRegex (regex : String) : Except SErr (List RElem) := do
  let st ← compileRegexLoop regex regex.data ⟨[], [], none, false⟩
  match st.inGroup with
  | some g => throw (.regex regex s!"unclosed {g}")
  | none =>
    let st := if 0 < st.currentElementChars.length then finishElement st else st
    pure st.compiled

/-- `consumeElement` from `src/lib/regex.js`: try to consume `repetitions`
repetitions of `chars` (where `.` matches any character) starting at
`strStartPos`. -/
def consumeElement (str : List Char) (strStartPos : Nat) (chars : List Char)
    (repetitions : Nat) : Bool :=
  let isAllDots := chars.all (· = '.')
  let charsToConsume := chars.length * repetitions
  if (charsToConsume : Int) > (str.length : Int) - (strStartPos : Int) then
    false
  else if isAllDots then
    true
  else
    (List.range repetitions).all fun rep =>
      (List.range chars.length).all fun i =>
        match chars.get? i with
        | none => true
        | some chr => chr = '.' ∨ str.get? (strStartPos + rep * chars.length + i) = some chr

/-- Result of `matchCompiledRegexRecursive`: `{capturingGroup, match}`. -/
structure MatchRes where
  capturingGroup : Bool
  matched : List Char
deriving DecidableEq, Repr

/-- The lazy repetition loop
`for (let reps = minRepeat; reps < maxRepeat; reps++)` of
`matchCompiledRegexRecursive`, where `maxRepeat` is `1` unless the element
`canRepeat` (then it is unbounded).  `tailMatch reps` matches the rest of the
pattern against the rest of the string after `reps` repetitions of `el`.
`budget` bounds the number of loop iterations; the caller passes one more
than the largest repetition count the string can accommodate, so the budget
is exhausted only in the cases (a repeatable element with an empty character
list) where the JavaScript source itself loops forever. -/
def tryRepetitions (el : RElem) (str : List Char) (strPos : Nat)
    (capturedSubstring : Option (List Char))
    (tailMatch : Nat → Option MatchRes) : Nat → Nat → Option MatchRes
  | _, 0 => none
  | reps, budget + 1 =>
    if el.canRepeat = false ∧ 1 ≤ reps then
      -- Loop bound reached (`reps < maxRepeat` fails with `maxRepeat = 1`).
      none
    else if 0 < reps ∧ consumeElement str strPos el.chars reps = false then
      -- If we did not match N times, we will not match N+1 times.
      none
    else
      match tailMatch reps with
      | some tailM =>
        if tailM.capturingGroup then
          some tailM
        else if el.capturing then
          some { capturingGroup := true,
                 matched := (str.drop strPos).take (el.chars.length * reps) }
        else
          some { capturingGroup := capturedSubstring.isSome,
                 matched := capturedSubstring.getD str }
      | none =>
        tryRepetitions el str strPos capturedSubstring tailMatch (reps + 1) budget

/-- `matchCompiledRegexRecursive` from `src/lib/regex.js`: match the
compiled elements left to right from `strPos`, carrying the capture seen so
far; on a quantified element, decide the whole remaining match inside the
lazy repetition loop (the source recurses with the rest of the pattern
against the rest of the string, with a fresh position and capture). -/
def matchCompiledRegexRecursive : List RElem → List Char → Nat →
    Option (List Char) → Option MatchRes
  | [], str, strPos, capturedSubstring =>
    -- Exhausted all regex elements: matched iff the string is exhausted too.
    if strPos = str.length then
      some { capturingGroup := capturedSubstring.isSome,
             matched := capturedSubstring.getD str }
    else
      none
  | el :: rest, str, strPos, capturedSubstring =>
    if el.optional = false ∧ el.canRepeat = false then
      -- Consume iteratively.
      if consumeElement str strPos el.chars 1 then
        matchCompiledRegexRecursive rest str (strPos + el.chars.length)
          (if el.capturing then some ((str.drop strPos).take el.chars.length)
           else capturedSubstring)
      else
        none
    else
      tryRepetitions el str strPos capturedSubstring
        (fun reps => matchCompiledRegexRecursive rest
          (str.drop (strPos + el.chars.length * reps)) 0 none)
        (if el.optional then 0 else 1)
        (str.length - strPos + 2)

/-- `matchCompiledRegex` from `src/lib/regex.js`: the capture (or, with no
capture group, the whole string) when the pattern matches, else `none`. -/
def matchCompiledRegex (regex : List RElem) (str : String) : Option String :=
  match matchCompiledRegexRecursive regex str.data 0 none with
  | some r => some (String.mk r.matched)
  | none => none

/-- The candidate loop of `evalRegex`: return the first candidate's match
value, or the empty string when no candidate matches. -/
def evalRegexLoop (compiledRegex : List RElem) : List String → String
  | [] => ""
  | str :: rest =>
    match matchCompiledRegex compiledRegex str with
    | some result => result
    | none => evalRegexLoop compiledRegex rest

/-- `evalRegex` from `src/lib/regex.js`: compile the pattern (compile errors
propagate) and try the candidate strings in order. -/
def evalRegex (regex : String) (stringsToMatch : List String) : Except SErr String := do
  let compiledRegex ← compileRegex regex
  pure (evalRegexLoop compiledRegex stringsToMatch)

/-- The printable symbol of an operator, used in error messages. -/
def opSymbol : Op → String
  | .add => "+"
  | .mul => "*"
  | .div => "/"
  | .mod => "%"
  | .caret => "^"
  | .tilde => "~"
  | .question => "?"
  | .dollar => "$"

/-- The operator dispatch chain of `evaluate` in `src/lib/runtime.js`.
`op1` is the first pop (top of stack), `op2` the second pop.  Note that the
source computes `Math.floor(sortleNumber(op1) / sortleNumber(op2))` and
`sortleNumber(op1) % sortleNumber(op2)` — first pop over second pop. -/
def applyOp (o : Op) (op1 op2 : Value) (expressions : List Entry) (ip : Nat) :
    Except SErr Value :=
  match o with
  | .add => pure (.num (jsAdd (sortleNumber op1) (sortleNumber op2)))
  | .mul => pure (.num (jsMul (sortleNumber op1) (sortleNumber op2)))
  | .div => pure (.num (jsFloorDiv (sortleNumber op1) (sortleNumber op2)))
  | .mod => pure (.num (jsMod (sortleNumber op1) (sortleNumber op2)))
  | .caret | .dollar =>
    let sop1 := sortleString op1
    let sop2 := sortleString op2
    pure (.str (if sop1 > sop2 then sop1 else sop2))
  | .tilde => pure (.str (sortleString op2 ++ sortleString op1))
  | .question =>
    if sortleString op1 ≠ "" then
      throw (.runtime "substring regex form not implemented")
    else
      -- expressions.slice(0, ip).reverse().concat(expressions.slice(ip + 1).reverse())
      let expressionsToMatch :=
        (expressions.take ip).reverse ++ (expressions.drop (ip + 1)).reverse
      do
        let result ← evalRegex (sortleString op2) (expressionsToMatch.map Prod.fst)
        pure (.str result)

/-- The term loop of `evaluate`: literals are pushed; an operator pops two
operands (erroring when fewer than two are on the stack) and pushes one
result.  The stack is a cons list with its top at the head. -/
def evalTerms (expressions : List Entry) (ip : Nat) :
    List Term → List Value → Except SErr (List Value)
  | [], stack => pure stack
  | term :: rest, stack =>
    match term with
    | .num n => evalTerms expressions ip rest (.num (.int n) :: stack)
    | .str s => evalTerms expressions ip rest (.str s :: stack)
    | .op o =>
      match stack with
      | op1 :: op2 :: stack => do
        let v ← applyOp o op1 op2 expressions ip
        evalTerms expressions ip rest (v :: stack)
      | _ =>
        let sym := opSymbol o
        let have_ := stack.length
        throw (.runtime s!"cannot execute {sym}: need 2 elements on stack, have {have_}")

/-- `evaluate` from `src/lib/runtime.js`: run the term loop on a fresh stack
and require exactly one remaining value. -/
def evaluate (terms : List Term) (expressions : List Entry) (ip : Nat) :
    Except SErr Value := do
  let stack ← evalTerms expressions ip terms []
  match stack with
  | [v] => pure v
  | other =>
    let n := other.length
    throw (.runtime s!"stack must end with exactly 1 value, but ended with {n}")

/-- The insertion part of the loop body of `runProgram` (lines 34-49 of
`src/lib/runtime.js`), applied to the state after `splice(ip, 1)`:
find the first index whose name is `≥ newName` (JavaScript `findIndex`
yields `-1` when there is none, which the source normalizes to the length;
`List.findIdx` returns the length directly), clobber when that entry's name
equals `newName`, otherwise insert before it.  Returns the new state and the
updated instruction pointer `indexToInsertBefore + 1`. -/
def findInsertAndPlace (newEntry : Entry) (expressions : List Entry) :
    List Entry × Nat :=
  let indexToInsertBefore :=
    expressions.findIdx fun otherExpression => decide (newEntry.1 ≤ otherExpression.1)
  let clobbering : Bool :=
    decide (indexToInsertBefore < expressions.length) &&
      ((expressions.get? indexToInsertBefore).map Prod.fst == some newEntry.1)
  (if clobbering then expressions.set indexToInsertBefore newEntry
   else expressions.insertIdx indexToInsertBefore newEntry,
   indexToInsertBefore + 1)

/-- One rewrite of the program state (lines 28-50 of `src/lib/runtime.js`),
given the already-computed `newName`: remove the entry at `ip`; when
`newName` is non-empty, reinsert (or clobber) `[newName, terms]` at the sort
position and move `ip` past it; when `newName` is empty, the entry is
deleted and `ip` is left as is.  The final wrap of `ip` to `0` happens in
`runLoop`. -/
def stepInsert (expressions : List Entry) (ip : Nat) (newName : String)
    (terms : List Term) : List Entry × Nat :=
  let newEntry : Entry := (newName, terms)
  let expressions := expressions.eraseIdx ip
  if newName ≠ "" then findInsertAndPlace newEntry expressions
  else (expressions, ip)

/-- The `while (expressions.length > 1)` loop of `runProgram`.  `fuel` bounds
the number of iterations (Sortle programs may loop forever); `none` means the
bound was reached. -/
def runLoop (fuel : Nat) (expressions : List Entry) (ip : Nat) :
    Option (Except SErr String) :=
  if 1 < expressions.length then
    match fuel with
    | 0 => none
    | fuel + 1 =>
      match expressions.get? ip with
      | none =>
        -- Unreachable from `runProgram`: the loop keeps `ip < expressions.length`.
        some (.error (.runtime "internal error: instruction pointer out of range"))
      | some (_name, terms) =>
        match evaluate terms expressions ip with
        | .error e => some (.error e)
        | .ok v =>
          let newName := sortleString v
          let next := stepInsert expressions ip newName terms
          let ip := if next.2 = next.1.length then 0 else next.2
          runLoop fuel next.1 ip
  else
    match expressions.head? with
    | some e => some (.ok e.1)
    | none => some (.error (.runtime "internal error: empty state"))

/-- `runProgram` from `src/lib/runtime.js`: reject an empty program, then
iterate the rewrite loop from `ip = 0` and return the final expression's
name. -/
def runProgram (fuel : Nat) (expressions : List Entry) :
    Option (Except SErr String) :=
  if expressions.length = 0 then
    some (.error (.runtime "program must have at least one expression"))
  else
    runLoop fuel expressions 0

/-! ## Helper lemmas -/

/-- Digit characters produced by `Nat.digitChar` on digits below ten are
decimal digits. -/
theorem digitChar_isDigit : ∀ d < 10, (Nat.digitChar d).isDigit = true := by decide

/-- Character value of a digit character produced by `Nat.digitChar`. -/
theorem digitChar_val : ∀ d < 10, (Nat.digitChar d).toNat - Char.toNat '0' = d := by decide

/-- Folding the decimal-parse step over the big-endian digit characters of
`n` recovers `n`. -/
theorem foldl_digits_eq (n : Nat) :
    ((Nat.digits 10 n).reverse.map Nat.digitChar).foldl
      (fun acc c => acc * 10 + (c.toNat - Char.toNat '0')) 0 = n := by
  induction n using Nat.strong_induction_on with
  | _ n ih =>
    rcases Nat.eq_zero_or_pos n with h0 | hpos
    · subst h0; simp
    · rw [Nat.digits_def' (by norm_num : 1 < 10) hpos]
      rw [List.reverse_cons, List.map_append, List.foldl_append]
      rw [ih (n / 10) (Nat.div_lt_self hpos (by norm_num))]
      have hlt : n % 10 < 10 := Nat.mod_lt _ (by norm_num)
      have hv := digitChar_val (n % 10) hlt
      simp only [List.map_cons, List.map_nil, List.foldl_cons, List.foldl_nil]
      omega

/-- The fuel-bounded digit extraction agrees with `Nat.digits 10` whenever
the fuel is at least the number. -/
theorem natDigitsRev_eq_digits :
    ∀ fuel n : Nat, n ≤ fuel → natDigitsRev fuel n = Nat.digits 10 n := by
  intro fuel
  induction fuel with
  | zero =>
    intro n hn
    have h0 : n = 0 := Nat.le_zero.mp hn
    subst h0
    simp [natDigitsRev]
  | succ fuel ih =>
    intro n hn
    by_cases h0 : n = 0
    · subst h0; simp [natDigitsRev]
    · rw [natDigitsRev, if_neg h0]
      have hdiv : n / 10 ≤ fuel := by
        have := Nat.div_lt_self (Nat.pos_of_ne_zero h0) (by norm_num : 1 < 10)
        omega
      rw [ih (n / 10) hdiv,
        Nat.digits_def' (by norm_num : 1 < 10) (Nat.pos_of_ne_zero h0)]

/-- `natToDecimal` in terms of `Nat.digits`. -/
theorem natToDecimal_eq (n : Nat) :
    natToDecimal n =
      if n = 0 then ['0'] else (Nat.digits 10 n).reverse.map Nat.digitChar := by
  unfold natToDecimal
  by_cases h0 : n = 0
  · simp [h0]
  · rw [if_neg h0, if_neg h0, natDigitsRev_eq_digits n n le_rfl]

/-- Every character of the decimal representation is a digit. -/
theorem natToDecimal_all_digits (n : Nat) :
    ∀ c ∈ natToDecimal n, c.isDigit = true := by
  intro c hc
  rw [natToDecimal_eq] at hc
  split at hc
  · simp only [List.mem_singleton] at hc
    subst hc; decide
  · simp only [List.mem_map, List.mem_reverse] at hc
    obtain ⟨d, hd, rfl⟩ := hc
    exact digitChar_isDigit d (Nat.digits_lt_base (by norm_num) hd)

/-- Parsing the decimal representation of a natural number recovers it. -/
theorem parseLeadingDigits_natToDecimal (n : Nat) :
    parseLeadingDigits (natToDecimal n) = n := by
  unfold parseLeadingDigits
  rw [List.takeWhile_eq_self_iff.mpr (natToDecimal_all_digits n)]
  rw [natToDecimal_eq]
  split
  · subst ‹n = 0›; decide
  · exact foldl_digits_eq n

/-- The leading-digit scan of a string starting with `-` is empty, so the
parsed value is `0`. -/
theorem parseLeadingDigits_dash (l : List Char) :
    parseLeadingDigits ('-' :: l) = 0 :=
  rfl

/-- Recursive characterization of the `findIndex`/`splice` composite of the
rewrite loop: walk the (sorted) list and either clobber the first entry with
an equal name, insert before the first entry with a larger name, or append. -/
def insertOrClobber (x : Entry) : List Entry → List Entry
  | [] => [x]
  | e :: l =>
    if x.1 ≤ e.1 then
      (if e.1 = x.1 then x :: l else x :: e :: l)
    else
      e :: insertOrClobber x l

/-- `findInsertAndPlace` computes `insertOrClobber`. -/
theorem findInsertAndPlace_eq (x : Entry) (l : List Entry) :
    (findInsertAndPlace x l).1 = insertOrClobber x l := by
  induction l with
  | nil => rfl
  | cons e l ih =>
    unfold findInsertAndPlace insertOrClobber
    dsimp only
    rw [List.findIdx_cons]
    by_cases hle : x.1 ≤ e.1
    · rw [decide_eq_true hle, cond_true, if_pos hle]
      by_cases heq : e.1 = x.1
      · have h1 : (decide (0 < (e :: l).length) &&
            (Option.map Prod.fst ((e :: l).get? 0) == some x.1)) = true := by
          simp [heq]
        rw [h1, if_pos heq]
        simp
      · have h1 : (decide (0 < (e :: l).length) &&
            (Option.map Prod.fst ((e :: l).get? 0) == some x.1)) = false := by
          simp [heq]
        rw [h1, if_neg heq]
        simp
    · rw [decide_eq_false hle, cond_false, if_neg hle, ← ih]
      unfold findInsertAndPlace
      dsimp only
      have hget : (e :: l).get? (List.findIdx
          (fun o => decide (x.1 ≤ o.1)) l + 1) =
          l.get? (List.findIdx (fun o => decide (x.1 ≤ o.1)) l) := rfl
      have hdec : decide (List.findIdx (fun o => decide (x.1 ≤ o.1)) l + 1 <
            (e :: l).length) =
          decide (List.findIdx (fun o => decide (x.1 ≤ o.1)) l < l.length) :=
        decide_eq_decide.mpr (by simp [Nat.succ_lt_succ_iff])
      rw [hget, hdec]
      by_cases hcl : (decide (List.findIdx (fun o => decide (x.1 ≤ o.1)) l <
            l.length) &&
          (Option.map Prod.fst (l.get? (List.findIdx
            (fun o => decide (x.1 ≤ o.1)) l)) == some x.1)) = true
      · rw [if_pos hcl, if_pos hcl]
        rfl
      · rw [if_neg hcl, if_neg hcl]
        rw [List.insertIdx_succ_cons]

/-- Members of `insertOrClobber x l` are `x` or members of `l`. -/
theorem mem_insertOrClobber {x y : Entry} {l : List Entry}
    (hy : y ∈ insertOrClobber x l) : y = x ∨ y ∈ l := by
  induction l with
  | nil => simpa [insertOrClobber] using hy
  | cons e l ih =>
    unfold insertOrClobber at hy
    split at hy
    · split at hy <;> simp only [List.mem_cons] at hy ⊢ <;> tauto
    · simp only [List.mem_cons] at hy ⊢
      rcases hy with rfl | hy
      · tauto
      · rcases ih hy with h | h <;> tauto

/-- `insertOrClobber` never yields an empty list. -/
theorem insertOrClobber_ne_nil (x : Entry) (l : List Entry) :
    insertOrClobber x l ≠ [] := by
  cases l with
  | nil => simp [insertOrClobber]
  | cons e l =>
    unfold insertOrClobber
    split
    · split <;> simp
    · simp

/-- `insertOrClobber` preserves strictly-increasing name order. -/
theorem insertOrClobber_pairwise {x : Entry} {l : List Entry}
    (h : l.Pairwise fun a b => a.1 < b.1) :
    (insertOrClobber x l).Pairwise fun a b => a.1 < b.1 := by
  induction l with
  | nil => simp [insertOrClobber]
  | cons e l ih =>
    rw [List.pairwise_cons] at h
    obtain ⟨he, hl⟩ := h
    unfold insertOrClobber
    split
    · rename_i hle
      split
      · rename_i heq
        rw [List.pairwise_cons]
        exact ⟨fun b hb => heq ▸ he b hb, hl⟩
      · rename_i hne
        have hxe : x.1 < e.1 := lt_of_le_of_ne hle (fun hx => hne hx.symm)
        rw [List.pairwise_cons]
        refine ⟨?_, List.pairwise_cons.mpr ⟨he, hl⟩⟩
        intro b hb
        rcases List.mem_cons.mp hb with rfl | hb
        · exact hxe
        · exact hxe.trans (he b hb)
    · rename_i hgt
      push_neg at hgt
      rw [List.pairwise_cons]
      refine ⟨?_, ih hl⟩
      intro b hb
      rcases mem_insertOrClobber hb with rfl | hb
      · exact hgt
      · exact he b hb

/-- The name-candidate loop of `evalRegex` returns the empty string when no
candidate matches. -/
theorem evalRegexLoop_eq_empty (c : List RElem) (names : List String)
    (h : ∀ m ∈ names, matchCompiledRegex c m = none) :
    evalRegexLoop c names = "" := by
  induction names with
  | nil => rfl
  | cons n rest ih =>
    unfold evalRegexLoop
    rw [h n (by simp)]
    exact ih fun m hm => h m (by simp [hm])

/-- The name-candidate loop of `evalRegex` returns the match value of the
first matching candidate. -/
theorem evalRegexLoop_first (c : List RElem) (l1 : List String) (n : String)
    (l2 : List String) (r : String)
    (h1 : ∀ m ∈ l1, matchCompiledRegex c m = none)
    (hn : matchCompiledRegex c n = some r) :
    evalRegexLoop c (l1 ++ n :: l2) = r := by
  induction l1 with
  | nil => simp [evalRegexLoop, hn]
  | cons m rest ih =>
    unfold evalRegexLoop
    rw [List.cons_append]
    simp only
    rw [h1 m (by simp)]
    exact ih fun m' hm' => h1 m' (by simp [hm'])

/-! ## Claims -/

/-- C1: Counter to the claim, the evaluator's `/` pushes
`floor(to-integer(op1) / to-integer(op2))` — first pop divided by second
pop — and `%` pushes `to-integer(op1) mod to-integer(op2)`: the body
`[6, 3, /]` evaluates to `0` (where the claimed `floor(op2/op1)` is `2`),
and `[7, 3, %]` evaluates to `3` (where the claimed `op2 mod op1` is `1`). -/
theorem c1_div_mod_operand_order :
    evaluate [Term.num 6, Term.num 3, Term.op Op.div] [] 0 =
      Except.ok (Value.num (SNum.int 0)) ∧
    evaluate [Term.num 7, Term.num 3, Term.op Op.mod] [] 0 =
      Except.ok (Value.num (SNum.int 3)) ∧
    Int.fdiv 6 3 = 2 ∧ Int.tmod 7 3 = 1 :=
  ⟨rfl, rfl, by decide, by decide⟩

/-- C2: Counter to the claim, a zero divisor raises no error at all: with
`op1 = 0` (the claim's divisor) the `/` and `%` bodies evaluate to the
integer `0`, and with `op2 = 0` (the divisor the code actually uses) they
evaluate to the JavaScript values `Infinity` and `NaN`; in every case a
value is pushed and evaluation succeeds. -/
theorem c2_zero_divisor_raises_no_error :
    evaluate [Term.num 5, Term.num 0, Term.op Op.div] [] 0 =
      Except.ok (Value.num (SNum.int 0)) ∧
    evaluate [Term.num 5, Term.num 0, Term.op Op.mod] [] 0 =
      Except.ok (Value.num (SNum.int 0)) ∧
    evaluate [Term.num 0, Term.num 5, Term.op Op.div] [] 0 =
      Except.ok (Value.num SNum.inf) ∧
    evaluate [Term.num 0, Term.num 5, Term.op Op.mod] [] 0 =
      Except.ok (Value.num SNum.nan) :=
  ⟨rfl, rfl, rfl, rfl⟩

/-- C3: Counter to the claim, an `@` element is never tried with one
repetition: the repetition loop's bound (`reps < maxRepeat` with
`maxRepeat = 1`) stops it after zero repetitions, so the pattern `a@` does
not match the string `a` (even though one repetition would consume it) and
the regex search over the single candidate `a` yields the empty string. -/
theorem c3_optional_never_tried_once :
    compileRegex "a@" = Except.ok
      [{ chars := ['a'], capturing := false, grouped := false,
         optional := true, canRepeat := false }] ∧
    matchCompiledRegex
      [{ chars := ['a'], capturing := false, grouped := false,
         optional := true, canRepeat := false }] "a" = none ∧
    evalRegex "a@" ["a"] = Except.ok "" ∧
    consumeElement "a".data 0 ['a'] 1 = true ∧
    (∀ (tailMatch : Nat → Option MatchRes) (budget : Nat),
      tryRepetitions
        { chars := ['a'], capturing := false, grouped := false,
          optional := true, canRepeat := false }
        "a".data 0 none tailMatch 1 (budget + 1) = none) :=
  ⟨rfl, rfl, rfl, rfl, fun _ _ => rfl⟩

/-- C4 counterexample: the round trip fails on the negative integer `-1`
(`to-string(-1) = "-1"`, whose leading-digit scan is empty, so `to-integer`
returns `0`) and on `10^21` (`String` switches to exponential notation,
`to-string(10^21) = "1e+21"`, and the digit scan stops before the `e`,
returning `1`). -/
theorem c4_counterexample :
    sortleNumber (Value.str (sortleString (Value.num (SNum.int (-1))))) =
      SNum.int 0 ∧
    SNum.int 0 ≠ SNum.int (-1) ∧
    sortleString (Value.num (SNum.int (10 ^ 21))) = "1e+21" ∧
    sortleNumber (Value.str (sortleString (Value.num (SNum.int (10 ^ 21))))) =
      SNum.int 1 ∧
    SNum.int 1 ≠ SNum.int (10 ^ 21) :=
  ⟨rfl, by decide, rfl, rfl, by decide⟩

/-- C4 (amended): `to-integer(to-string(n)) = n` for every nonnegative
integer `n` below `10^21` — the range in which `String(n)` is plain decimal
(in particular `to-string(0) = ""` and `to-integer("") = 0` close the loop
at zero) — while for every negative `n` the round trip returns `0`, the
leading `-` stopping the digit scan.  From `10^21` on, exponential notation
collapses the round trip to the digits before the point (counterexample
above). -/
theorem c4_roundtrip_characterization :
    (∀ n : Int, 0 ≤ n → n < 10 ^ 21 →
      sortleNumber (Value.str (sortleString (Value.num (SNum.int n)))) =
        SNum.int n) ∧
    (∀ n : Int, n < 0 →
      sortleNumber (Value.str (sortleString (Value.num (SNum.int n)))) =
        SNum.int 0) := by
  constructor
  · intro n hn hlt
    by_cases h0 : n = 0
    · subst h0; rfl
    · have hne : SNum.int n ≠ SNum.int 0 := fun h => h0 (by injection h)
      have hnlt : ¬n < 0 := not_lt.mpr hn
      have habs : (n.natAbs : Int) = n := Int.natAbs_of_nonneg hn
      have h1 : n.natAbs < 10 ^ 21 := by
        have h2 : ((n.natAbs : Int)) < (10 : Int) ^ 21 := by
          rw [habs]; exact hlt
        exact_mod_cast h2
      simp only [sortleString, if_neg hne, jsNumToString, jsIntToString,
        if_pos h1, if_neg hnlt, sortleNumber]
      rw [parseLeadingDigits_natToDecimal, habs]
  · intro n hn
    have hne : SNum.int n ≠ SNum.int 0 := by
      intro h
      injection h with h
      omega
    simp only [sortleString, if_neg hne, jsNumToString, jsIntToString,
      if_pos hn, sortleNumber]
    rw [parseLeadingDigits_dash]
    rfl

/-- C4 witness: the amended round trip at the concrete inputs `7`
(nonnegative branch) and `-2` (negative branch). -/
theorem c4_roundtrip_characterization_witness :
    (0 ≤ (7 : Int) ∧ (7 : Int) < 10 ^ 21 ∧
      sortleNumber (Value.str (sortleString (Value.num (SNum.int 7)))) =
        SNum.int 7) ∧
    ((-2 : Int) < 0 ∧
      sortleNumber (Value.str (sortleString (Value.num (SNum.int (-2))))) =
        SNum.int 0) :=
  ⟨⟨by decide, by decide,
     c4_roundtrip_characterization.1 7 (by decide) (by decide)⟩,
   ⟨by decide, c4_roundtrip_characterization.2 (-2) (by decide)⟩⟩

/-- C5: one iteration of the rewrite loop — remove the evaluated entry, then
delete, insert, or clobber depending on the new name — preserves the state
invariants: for every state with strictly increasing (hence pairwise
distinct) non-empty names, every valid instruction pointer, and every
possible new name, the resulting state again has strictly increasing
non-empty names and is non-empty. -/
theorem c5_step_preserves_invariants (expressions : List Entry) (ip : Nat)
    (newName : String) (terms : List Term)
    (hsort : expressions.Pairwise fun a b => a.1 < b.1)
    (hnames : ∀ e ∈ expressions, e.1 ≠ "")
    (hlen : 1 < expressions.length) (hip : ip < expressions.length) :
    ((stepInsert expressions ip newName terms).1.Pairwise
      fun a b => a.1 < b.1) ∧
    (∀ e ∈ (stepInsert expressions ip newName terms).1, e.1 ≠ "") ∧
    (stepInsert expressions ip newName terms).1 ≠ [] := by
  have hsub : List.Sublist (expressions.eraseIdx ip) expressions :=
    List.eraseIdx_sublist expressions ip
  have hsort2 : (expressions.eraseIdx ip).Pairwise (fun a b => a.1 < b.1) :=
    hsort.sublist hsub
  have hnames2 : ∀ e ∈ expressions.eraseIdx ip, e.1 ≠ "" :=
    fun e he => hnames e (hsub.subset he)
  have hlen2 : 0 < (expressions.eraseIdx ip).length := by
    have := List.length_eraseIdx_add_one hip
    omega
  unfold stepInsert
  dsimp only
  by_cases hnn : newName ≠ ""
  · rw [if_pos hnn]
    have heq := findInsertAndPlace_eq (newName, terms) (expressions.eraseIdx ip)
    rw [heq]
    refine ⟨insertOrClobber_pairwise hsort2, ?_, insertOrClobber_ne_nil _ _⟩
    intro e he
    rcases mem_insertOrClobber he with rfl | he
    · exact hnn
    · exact hnames2 e he
  · rw [if_neg hnn]
    exact ⟨hsort2, hnames2, List.length_pos.mp hlen2⟩

/-- C5 witness: the step theorem at the concrete state
`[("a", []), ("b", [])]`, pointer `0`, new name `"c"`. -/
theorem c5_step_preserves_invariants_witness :
    (([(("a" : String), ([] : List Term)), ("b", [])]).Pairwise
      fun a b => a.1 < b.1) ∧
    (∀ e ∈ [(("a" : String), ([] : List Term)), ("b", [])], e.1 ≠ "") ∧
    1 < ([(("a" : String), ([] : List Term)), ("b", [])]).length ∧
    0 < ([(("a" : String), ([] : List Term)), ("b", [])]).length ∧
    ((stepInsert [("a", []), ("b", [])] 0 "c" []).1.Pairwise
      fun a b => a.1 < b.1) ∧
    (∀ e ∈ (stepInsert [("a", []), ("b", [])] 0 "c" []).1, e.1 ≠ "") ∧
    (stepInsert [("a", []), ("b", [])] 0 "c" []).1 ≠ [] := by
  have h1 : (([(("a" : String), ([] : List Term)), ("b", [])]).Pairwise
      fun a b => a.1 < b.1) := by
    simp [List.pairwise_cons]
    decide
  have h2 : ∀ e ∈ [(("a" : String), ([] : List Term)), ("b", [])], e.1 ≠ "" := by
    decide
  obtain ⟨p1, p2, p3⟩ := c5_step_preserves_invariants
    [("a", []), ("b", [])] 0 "c" [] h1 h2 (by decide) (by decide)
  exact ⟨h1, h2, by decide, by decide, p1, p2, p3⟩

/-- C7: running a program with zero expressions fails with the
"program must have at least one expression" error before any step, and
running a program with exactly one expression returns that expression's
name immediately, for every fuel bound and every body (so the body is never
evaluated). -/
theorem c7_empty_and_singleton_programs :
    (∀ fuel, runProgram fuel [] =
      some (Except.error
        (SErr.runtime "program must have at least one expression"))) ∧
    (∀ fuel (name : String) (terms : List Term),
      runProgram fuel [(name, terms)] = some (Except.ok name)) := by
  refine ⟨fun fuel => rfl, fun fuel name terms => ?_⟩
  cases fuel <;> rfl

/-- C6: the `?` operator builds its candidate sequence as the entries
before the instruction pointer reversed, followed by the entries after it
reversed (the evaluating entry itself excluded), and pushes the
capture/match value of the first candidate whose name matches, or the empty
string when none does. -/
theorem c6_question_candidate_order (expressions : List Entry) (ip : Nat)
    (pat : String) (c : List RElem)
    (hc : compileRegex pat = Except.ok c) :
    evaluate [Term.str pat, Term.str "", Term.op Op.question] expressions ip =
      Except.ok (Value.str (evalRegexLoop c
        (((expressions.take ip).reverse ++
          (expressions.drop (ip + 1)).reverse).map Prod.fst))) ∧
    (∀ l1 n l2 r,
      ((expressions.take ip).reverse ++
        (expressions.drop (ip + 1)).reverse).map Prod.fst = l1 ++ n :: l2 →
      (∀ m ∈ l1, matchCompiledRegex c m = none) →
      matchCompiledRegex c n = some r →
      evalRegexLoop c (((expressions.take ip).reverse ++
        (expressions.drop (ip + 1)).reverse).map Prod.fst) = r) ∧
    ((∀ m ∈ ((expressions.take ip).reverse ++
        (expressions.drop (ip + 1)).reverse).map Prod.fst,
        matchCompiledRegex c m = none) →
      evalRegexLoop c (((expressions.take ip).reverse ++
        (expressions.drop (ip + 1)).reverse).map Prod.fst) = "") := by
  refine ⟨?_, ?_, ?_⟩
  · simp [evaluate, evalTerms, applyOp, sortleString, evalRegex, hc]
    rfl
  · intro l1 n l2 r heq h1 hn
    rw [heq]
    exact evalRegexLoop_first c l1 n l2 r h1 hn
  · intro h
    exact evalRegexLoop_eq_empty c _ h

/-- C6 witness: the candidate-order theorem at the concrete state
`[("a", []), ("c", [])]` with pointer `1` and pattern `"a"`. -/
theorem c6_question_candidate_order_witness :
    compileRegex "a" = Except.ok
      [{ chars := ['a'], capturing := false, grouped := false }] ∧
    (evaluate [Term.str "a", Term.str "", Term.op Op.question]
        [(("a" : String), ([] : List Term)), ("c", [])] 1 =
      Except.ok (Value.str (evalRegexLoop
        [{ chars := ['a'], capturing := false, grouped := false }]
        (((([(("a" : String), ([] : List Term)), ("c", [])]).take 1).reverse ++
          (([(("a" : String), ([] : List Term)), ("c", [])]).drop 2).reverse).map
            Prod.fst))) ∧
    (∀ l1 n l2 r,
      ((([(("a" : String), ([] : List Term)), ("c", [])]).take 1).reverse ++
        (([(("a" : String), ([] : List Term)), ("c", [])]).drop 2).reverse).map
          Prod.fst = l1 ++ n :: l2 →
      (∀ m ∈ l1, matchCompiledRegex
        [{ chars := ['a'], capturing := false, grouped := false }] m = none) →
      matchCompiledRegex
        [{ chars := ['a'], capturing := false, grouped := false }] n = some r →
      evalRegexLoop [{ chars := ['a'], capturing := false, grouped := false }]
        (((([(("a" : String), ([] : List Term)), ("c", [])]).take 1).reverse ++
          (([(("a" : String), ([] : List Term)), ("c", [])]).drop 2).reverse).map
            Prod.fst) = r) ∧
    ((∀ m ∈ ((([(("a" : String), ([] : List Term)), ("c", [])]).take 1).reverse ++
        (([(("a" : String), ([] : List Term)), ("c", [])]).drop 2).reverse).map
          Prod.fst,
        matchCompiledRegex
          [{ chars := ['a'], capturing := false, grouped := false }] m = none) →
      evalRegexLoop [{ chars := ['a'], capturing := false, grouped := false }]
        (((([(("a" : String), ([] : List Term)), ("c", [])]).take 1).reverse ++
          (([(("a" : String), ([] : List Term)), ("c", [])]).drop 2).reverse).map
            Prod.fst) = "")) :=
  ⟨rfl, c6_question_candidate_order [("a", []), ("c", [])] 1 "a"
    [{ chars := ['a'], capturing := false, grouped := false }] rfl⟩

/-- C8: a `!` or `@` modifier on an ungrouped literal of length greater
than one makes the compiler split the literal — the head characters become
a prior unquantified element and only the final character carries the
modifier; concretely, `abc!` compiles to the elements `ab` and repeatable
`c`, and matches `abccc`, returning the whole string since there is no
capture group. -/
theorem c8_modifier_splits_ungrouped_literal (m : Char) (l : List RElem)
    (e : RElem) (hm : m = '!' ∨ m = '@') (hg : e.grouped = false)
    (hlen : 1 < e.chars.length) :
    modifyLastElement m (l ++ [e]) =
      l ++ [{ chars := e.chars.dropLast, capturing := false, grouped := false },
            { chars := [e.chars.getLastD ' '], capturing := e.capturing,
              grouped := e.grouped, optional := m == '@',
              canRepeat := m == '!' }] ∧
    compileRegex "abc!" = Except.ok
      [{ chars := ['a', 'b'], capturing := false, grouped := false },
       { chars := ['c'], capturing := false, grouped := false,
         optional := false, canRepeat := true }] ∧
    matchCompiledRegex
      [{ chars := ['a', 'b'], capturing := false, grouped := false },
       { chars := ['c'], capturing := false, grouped := false,
         optional := false, canRepeat := true }] "abccc" = some "abccc" := by
  refine ⟨?_, rfl, rfl⟩
  rcases hm with rfl | rfl <;>
    simp [modifyLastElement, List.getLast?_concat, List.dropLast_concat, hg, hlen]

/-- C8 witness: the split at the concrete modifier `!` and literal `ab`. -/
theorem c8_modifier_splits_ungrouped_literal_witness :
    (('!' : Char) = '!' ∨ ('!' : Char) = '@') ∧
    ({ chars := ['a', 'b'], capturing := false, grouped := false } :
      RElem).grouped = false ∧
    1 < ({ chars := ['a', 'b'], capturing := false, grouped := false } :
      RElem).chars.length ∧
    modifyLastElement '!'
        [{ chars := ['a', 'b'], capturing := false, grouped := false }] =
      [{ chars := ['a'], capturing := false, grouped := false },
       { chars := ['b'], capturing := false, grouped := false,
         optional := false, canRepeat := true }] := by
  refine ⟨Or.inl rfl, rfl, by decide, ?_⟩
  have h := (c8_modifier_splits_ungrouped_literal '!' []
    { chars := ['a', 'b'], capturing := false, grouped := false }
    (Or.inl rfl) rfl (by decide)).1
  simpa using h

/-- C9: with anchored matching, the lazy `!` quantifier backtracks upward:
`a!` compiles to a single repeatable `a` element and matches `aaa` with
exactly three repetitions — one and two repetitions consume, but their
tails fail against the remaining characters, while the tail after three
repetitions succeeds on the exhausted string (and four repetitions would
not consume). -/
theorem c9_lazy_backtracks_to_three_reps :
    compileRegex "a!" = Except.ok
      [{ chars := ['a'], capturing := false, grouped := false,
         optional := false, canRepeat := true }] ∧
    matchCompiledRegex
      [{ chars := ['a'], capturing := false, grouped := false,
         optional := false, canRepeat := true }] "aaa" = some "aaa" ∧
    consumeElement "aaa".data 0 ['a'] 1 = true ∧
    consumeElement "aaa".data 0 ['a'] 2 = true ∧
    consumeElement "aaa".data 0 ['a'] 3 = true ∧
    consumeElement "aaa".data 0 ['a'] 4 = false ∧
    matchCompiledRegexRecursive [] ("aaa".data.drop 1) 0 none = none ∧
    matchCompiledRegexRecursive [] ("aaa".data.drop 2) 0 none = none ∧
    matchCompiledRegexRecursive [] ("aaa".data.drop 3) 0 none =
      some { capturingGroup := false, matched := [] } :=
  ⟨rfl, rfl, rfl, rfl, rfl, rfl, rfl, rfl, rfl⟩

end Sortle
